import Mathlib

/-!
Verification of the LinkedIn scheduled-post subsystem of the
"Winning Sales Content Hub" repository.

The repository's CRUD/front-end layer is TypeScript/React
(`frontend/src/pages/LinkedInSchedulerPage.tsx`); the scheduled-post store
and scheduler engine live in the Python backend, whose scheduler sources
are not part of this source snapshot, so the store and engine are modelled
from the design spec (sections 3, 4 and 7).  Statuses are modelled as the
lowercase strings the repository itself uses on the wire
(`"pending"`, `"publishing"`, `"published"`, `"failed"`).
-/

namespace Scheduler

/-- Modelled from the spec: the `ScheduledPost` entity of section 3.  The
backend model `ScheduledLinkedInPost` is not in the source snapshot; fields
follow section 3 and the frontend read-type `ScheduledLinkedInPostRead`.
Timestamps are integers (seconds), statuses are the wire strings. -/
structure ScheduledPost where
  id : Nat
  owner_account_id : Nat
  content_text : String
  scheduled_at : Int
  status : String
  retry_count : Nat
  max_retries : Nat
  remote_post_id : Option String
  error_message : Option String
deriving Repr, DecidableEq

/-- Modelled from the spec: the configurable base retry interval of the
backoff policy (section 4.3, point 3), in seconds. -/
def baseInterval : Nat := 60

/-- Modelled from the spec: the configured upper cap of the backoff policy
(section 4.3, point 3), in seconds. -/
def backoffCap : Nat := 3600

/-- Modelled from the spec: the exponential backoff curve of section 4.3,
point 3: base interval times 2^(n-1), with an upper cap. -/
def backoff (n : Nat) : Nat :=
  min (baseInterval * 2 ^ (n - 1)) backoffCap

/-- Modelled from the spec: the default `max_retries` constant
(section 3: "integer constant (e.g., 3)"). -/
def defaultMaxRetries : Nat := 3

/-- Modelled from the spec: the synchronous CRUD error taxonomy of
section 7. -/
inductive StoreError
  | validationError
  | notFoundError
  | invalidStateError
deriving Repr, DecidableEq

/-- Modelled from the spec: the state of the scheduled-post store, a table
of rows plus the id sequence used at creation. -/
structure StoreState where
  posts : List ScheduledPost
  nextId : Nat
deriving Repr, DecidableEq

/-- Modelled from the spec: the row inserted by `create` (section 4.1):
status `pending`, zero retries, no remote id, no error. -/
def mkPost (pid owner : Nat) (text : String) (sched : Int) : ScheduledPost :=
  { id := pid
    owner_account_id := owner
    content_text := text
    scheduled_at := sched
    status := "pending"
    retry_count := 0
    max_retries := defaultMaxRetries
    remote_post_id := none
    error_message := none }

/-- Modelled from the spec: `create(owner_account_id, content_text,
scheduled_at)` of section 4.1 — fails with `ValidationError` if
`scheduled_at` is not strictly in the future or `content_text` is empty;
otherwise inserts a fresh `pending` row. -/
def create (st : StoreState) (now : Int) (owner : Nat) (text : String)
    (sched : Int) : Except StoreError StoreState :=
  if sched ≤ now ∨ text = "" then
    .error .validationError
  else
    .ok { posts := st.posts ++ [mkPost st.nextId owner text sched]
          nextId := st.nextId + 1 }

/-- Modelled from the spec: `listByOwner` of section 4.1 — read-only, no
side effects, rows returned as stored. -/
def listByOwner (owner : Nat) (st : StoreState) : List ScheduledPost :=
  st.posts.filter (fun p => p.owner_account_id == owner)

/-- Modelled from the spec: `cancel(id, owner_account_id)` of section 4.1 —
`NotFoundError` if no matching row, `InvalidStateError` unless the row is
still `pending`, otherwise the row is deleted. -/
def cancel (pid owner : Nat) (st : StoreState) : Except StoreError StoreState :=
  match st.posts.find? (fun p => p.id == pid && p.owner_account_id == owner) with
  | none => .error .notFoundError
  | some p =>
      if p.status = "pending" then
        .ok { st with posts := st.posts.filter (fun q => q.id != pid) }
      else
        .error .invalidStateError

/-- Modelled from the spec: a row is due when it is `pending` and its
`scheduled_at` has passed (section 4.1, `claimDuePosts`). -/
def isDue (now : Int) (p : ScheduledPost) : Bool :=
  p.status == "pending" && decide (p.scheduled_at ≤ now)

/-- Modelled from the spec: the ids of the up-to-`limit` due rows selected
by one `claimDuePosts` call (section 4.1). -/
def dueIds (now : Int) (limit : Nat) (st : StoreState) : List Nat :=
  ((st.posts.filter (isDue now)).take limit).map (fun p => p.id)

/-- Modelled from the spec: the per-row effect of a claim — a selected row
moves to `publishing`, all others stay as they are. -/
def markClaimed (now : Int) (limit : Nat) (st : StoreState)
    (p : ScheduledPost) : ScheduledPost :=
  if (dueIds now limit st).contains p.id then { p with status := "publishing" }
  else p

/-- Modelled from the spec: `claimDuePosts(now, limit)` of section 4.1 —
atomically selects up to `limit` due `pending` rows and transitions them to
`publishing` in the same step, returning the claimed rows. -/
def claimDuePosts (now : Int) (limit : Nat) (st : StoreState) :
    StoreState × List ScheduledPost :=
  ({ st with posts := st.posts.map (markClaimed now limit st) },
   ((st.posts.filter (isDue now)).take limit).map
     (fun p => { p with status := "publishing" }))

/-- Modelled from the spec: the classified outcome of one publish attempt
(sections 4.2, 4.3 and 7); authentication failures are retryable and follow
the transient branch. -/
inductive Outcome
  | success (remoteId : String)
  | transient (msg : String)
  | permanent (msg : String)
deriving Repr, DecidableEq

/-- Modelled from the spec: the per-row transition of `recordOutcome`
(section 4.3, step 2c), applied to a row currently in `publishing`. -/
def applyOutcome (now : Int) (o : Outcome) (p : ScheduledPost) : ScheduledPost :=
  match o with
  | .success rid =>
      { p with status := "published", remote_post_id := some rid,
               error_message := none }
  | .transient msg =>
      if p.retry_count < p.max_retries then
        { p with status := "pending", retry_count := p.retry_count + 1,
                 scheduled_at := now + (backoff (p.retry_count + 1) : Int),
                 error_message := some msg }
      else
        { p with status := "failed", error_message := some msg }
  | .permanent msg =>
      { p with status := "failed", error_message := some msg }

/-- Modelled from the spec: the per-row effect of `recordOutcome` — only
the matching row in `publishing` takes the section 4.3 transition. -/
def recordStep (pid : Nat) (now : Int) (o : Outcome) (p : ScheduledPost) :
    ScheduledPost :=
  if p.id == pid && p.status == "publishing" then applyOutcome now o p else p

/-- Modelled from the spec: `recordOutcome(id, outcome)` of section 4.1 —
applies the section 4.3 transition atomically; a no-op (fail silently) on
rows that are not currently `publishing`. -/
def recordOutcome (pid : Nat) (now : Int) (o : Outcome) (st : StoreState) :
    StoreState :=
  { st with posts := st.posts.map (recordStep pid now o) }

/-- Modelled from the spec: one operation against the store, by the CRUD
layer (`create`, `cancel`) or by the engine (`claim`, `record`). -/
inductive Op
  | create (now : Int) (owner : Nat) (text : String) (sched : Int)
  | cancel (pid owner : Nat)
  | claim (now : Int) (limit : Nat)
  | record (pid : Nat) (now : Int) (o : Outcome)
deriving Repr

/-- Modelled from the spec: the effect of one operation on the store; a
failed CRUD call leaves the store unchanged (section 7: rejected
synchronously, never enters the store). -/
def applyOp (st : StoreState) : Op → StoreState
  | .create now owner text sched =>
      match create st now owner text sched with
      | .ok st' => st'
      | .error _ => st
  | .cancel pid owner =>
      match cancel pid owner st with
      | .ok st' => st'
      | .error _ => st
  | .claim now limit => (claimDuePosts now limit st).1
  | .record pid now o => recordOutcome pid now o st

/-- Modelled from the spec: a run of the system is a sequence of store
operations applied in order. -/
def run (ops : List Op) (st : StoreState) : StoreState :=
  ops.foldl applyOp st

/-- Modelled from the spec: the empty initial store. -/
def initialStore : StoreState := { posts := [], nextId := 0 }

/-- The four wire statuses of section 3. -/
def validStatuses : List String := ["pending", "publishing", "published", "failed"]

/-- Per-row invariant of section 3: bounded retries, a valid status, and
`remote_post_id` non-null exactly on `published`. -/
def WFPost (p : ScheduledPost) : Prop :=
  p.retry_count ≤ p.max_retries ∧
  p.status ∈ validStatuses ∧
  (p.remote_post_id ≠ none ↔ p.status = "published")

/-- Store invariant: all rows well-formed, row ids distinct, and every row
id below the id sequence. -/
def WFStore (st : StoreState) : Prop :=
  (∀ p ∈ st.posts, WFPost p) ∧
  (st.posts.map (fun p => p.id)).Nodup ∧
  (∀ p ∈ st.posts, p.id < st.nextId)

instance : DecidablePred WFPost := fun p => by
  unfold WFPost
  infer_instance

instance : DecidablePred WFStore := fun st => by
  unfold WFStore
  infer_instance

/-- Modelled from the spec: the current `scheduled_at` of a row, used to run
an engine tick exactly when the row has become due again after backoff. -/
def postNow (st : StoreState) (pid : Nat) : Int :=
  match st.posts.find? (fun p => p.id == pid) with
  | some p => p.scheduled_at
  | none => 0

/-- Modelled from the spec: one engine attempt that fails transiently
(section 4.3, step 2): a tick claims the due row and records a transient
publish failure for it. -/
def attemptTransient (msg : String) (pid : Nat) (st : StoreState) : StoreState :=
  recordOutcome pid (postNow st pid) (.transient msg)
    (claimDuePosts (postNow st pid) st.posts.length st).1

/-- Modelled from the spec: `n` consecutive transient publish failures of
the same post, each attempted once the post is due. -/
def failNTimes (msg : String) (pid : Nat) : Nat → StoreState → StoreState
  | 0, st => st
  | n + 1, st => failNTimes msg pid n (attemptTransient msg pid st)


end Scheduler

namespace Frontend

/-- Component state of `LinkedInSchedulerPage` relevant to scheduling: the
two controlled form fields and the two message banners
(`frontend/src/pages/LinkedInSchedulerPage.tsx`, lines 23-29). -/
structure PageState where
  contentText : String
  scheduledAt : String
  error : Option String
  successMessage : Option String
deriving Repr, DecidableEq

/-- Result of the `api.post` call to `/api/v1/linkedin/schedule`: resolved,
or rejected with an optional `detail` string from the response body. -/
inductive ApiResult
  | ok
  | err (detail : Option String)
deriving Repr, DecidableEq

/-- Result of one run of the submit handler: the new component state, and
the request payload (content text, parsed UTC time) if a request was
issued. -/
structure SubmitResult where
  state : PageState
  request : Option (String × Int)
deriving Repr, DecidableEq

/-- The submit handler `handleSchedulePost` of
`frontend/src/pages/LinkedInSchedulerPage.tsx` (lines 51-110): it clears
both banners, requires a signed-in user, parses the `datetime-local`
string (`parse` models `new Date(...)`, returning `none` for an invalid
date), rejects a missing or non-future time before any request is made,
and otherwise posts the payload; on success it sets the success banner and
clears both form fields, on failure it shows the server `detail` or a
fallback message and leaves the fields as they were. -/
def handleSchedulePost (userPresent : Bool) (parse : String → Option Int)
    (now : Int) (api : ApiResult) (st : PageState) : SubmitResult :=
  let st1 : PageState := { st with error := none, successMessage := none }
  if !userPresent then
    { state := { st1 with error := some "User not found." }, request := none }
  else if st.scheduledAt = "" then
    { state := { st1 with
        error := some "Invalid date/time: Scheduled date and time are required." }
      request := none }
  else
    match parse st.scheduledAt with
    | none =>
        { state := { st1 with
            error := some "Invalid date/time: Invalid date format" }
          request := none }
    | some t =>
        if t ≤ now then
          { state := { st1 with
              error :=
                some "Invalid date/time: Scheduled time must be in the future." }
            request := none }
        else
          match api with
          | .ok =>
              { state := { st1 with
                  successMessage := some "Post scheduled successfully!"
                  contentText := ""
                  scheduledAt := "" }
                request := some (st.contentText, t) }
          | .err d =>
              { state := { st1 with
                  error := some (d.getD "Failed to schedule post.") }
                request := some (st.contentText, t) }

/-- JS truthiness fallback `a || b` for an optional string field: both
`null` and the empty string are falsy
(`frontend/src/pages/LinkedInSchedulerPage.tsx`, line 235). -/
def jsOr (s : Option String) (dflt : String) : String :=
  match s with
  | some t => if t = "" then dflt else t
  | none => dflt

/-- Body text rendered for a post in the list: the first 150 characters of
`content_text` followed by an ellipsis exactly when the text is longer
(`frontend/src/pages/LinkedInSchedulerPage.tsx`, line 198). -/
def displayedBody (content : String) : String :=
  content.take 150 ++ (if content.length > 150 then "..." else "")

/-- Error text rendered for a failed post, after the static label:
`(post.error_message || 'Unknown error').substring(0, 50)` followed by an
ellipsis exactly when `(post.error_message || '').length > 50`
(`frontend/src/pages/LinkedInSchedulerPage.tsx`, lines 233-238). -/
def displayedFailedError (em : Option String) : String :=
  (jsOr em "Unknown error").take 50 ++
    (if (jsOr em "").length > 50 then "..." else "")

/-- The rendered body text as the claim states it: the first 150
characters of `content_text`, with an ellipsis appended exactly when the
text has more than 150 characters. -/
def claimedBody (content : String) : String :=
  content.take 150 ++ (if content.length > 150 then "..." else "")

/-- The rendered failed-post error as the claim states it: the first 50
characters of `error_message` (or `Unknown error` when null), with an
ellipsis appended exactly when the error message has more than 50
characters. -/
def claimedFailedError (em : Option String) : String :=
  (match em with
   | none => "Unknown error"
   | some e => e).take 50 ++
    (if (match em with
         | none => ""
         | some e => e).length > 50 then "..." else "")

/-- The rendered failed-post error as amended: as the claim states it,
except that the `Unknown error` fallback also applies when
`error_message` is the empty string, matching the JS truthiness of the
`||` operator the page uses. -/
def amendedFailedError (em : Option String) : String :=
  (match em with
   | none => "Unknown error"
   | some e => if e = "" then "Unknown error" else e).take 50 ++
    (if (match em with
         | none => ""
         | some e => e).length > 50 then "..." else "")

end Frontend

namespace Scheduler

theorem mkPost_wf (pid owner : Nat) (text : String) (sched : Int) :
    WFPost (mkPost pid owner text sched) := by
  refine ⟨?_, ?_, ?_⟩ <;> simp [mkPost, validStatuses, defaultMaxRetries, WFPost]

theorem create_wf {st st' : StoreState} {now sched : Int} {owner : Nat}
    {text : String} (hok : create st now owner text sched = .ok st')
    (hwf : WFStore st) : WFStore st' := by
  unfold create at hok
  split at hok
  · exact absurd hok (by simp)
  · obtain ⟨hposts, hnodup, hbound⟩ := hwf
    injection hok with hok
    subst hok
    refine ⟨?_, ?_, ?_⟩
    · intro p hp
      rcases List.mem_append.mp hp with h | h
      · exact hposts p h
      · simp only [List.mem_singleton] at h
        exact h ▸ mkPost_wf _ _ _ _
    · simp only [List.map_append, List.map_cons, List.map_nil]
      rw [List.nodup_append]
      refine ⟨hnodup, List.nodup_singleton _, ?_⟩
      intro a ha hb
      simp only [List.mem_singleton] at hb
      subst hb
      obtain ⟨p, hp, hpid⟩ := List.mem_map.mp ha
      simp only [mkPost] at hpid
      exact absurd (hpid ▸ hbound p hp) (lt_irrefl _)
    · intro p hp
      rcases List.mem_append.mp hp with h | h
      · exact Nat.lt_succ_of_lt (hbound p h)
      · simp only [List.mem_singleton] at h
        subst h
        simp [mkPost]

theorem cancel_wf {st st' : StoreState} {pid owner : Nat}
    (hok : cancel pid owner st = .ok st') (hwf : WFStore st) : WFStore st' := by
  unfold cancel at hok
  split at hok
  · exact absurd hok (by simp)
  · split at hok
    · obtain ⟨hposts, hnodup, hbound⟩ := hwf
      injection hok with hok
      subst hok
      refine ⟨?_, ?_, ?_⟩
      · intro p hp
        exact hposts p (List.mem_of_mem_filter hp)
      · exact List.Nodup.sublist (List.Sublist.map _ (List.filter_sublist _)) hnodup
      · intro p hp
        exact hbound p (List.mem_of_mem_filter hp)
    · exact absurd hok (by simp)

theorem claim_ids_eq (now : Int) (limit : Nat) (st : StoreState) :
    ((claimDuePosts now limit st).1.posts.map fun p => p.id)
      = st.posts.map fun p => p.id := by
  unfold claimDuePosts
  simp only [List.map_map]
  refine List.map_congr_left ?_
  intro p _
  simp only [Function.comp_apply]
  unfold markClaimed
  split <;> rfl

theorem claim_mem_status {now : Int} {limit : Nat} {st : StoreState}
    (hnodup : (st.posts.map fun p => p.id).Nodup)
    {p' : ScheduledPost} (hp' : p' ∈ (claimDuePosts now limit st).1.posts) :
    p' ∈ st.posts ∨
      ∃ p ∈ st.posts, p.status = "pending" ∧ p' = { p with status := "publishing" } := by
  unfold claimDuePosts at hp'
  simp only at hp'
  obtain ⟨p, hp, hmark⟩ := List.mem_map.mp hp'
  by_cases hc : (dueIds now limit st).contains p.id = true
  · right
    refine ⟨p, hp, ?_, ?_⟩
    · have hmem : p.id ∈ dueIds now limit st := by simpa using hc
      obtain ⟨q, hq, hqid⟩ := List.mem_map.mp hmem
      have hqmem : q ∈ st.posts.filter (isDue now) := List.mem_of_mem_take hq
      have hqdue : isDue now q = true := List.of_mem_filter hqmem
      have hqposts : q ∈ st.posts := List.mem_of_mem_filter hqmem
      have hqp : q = p := List.inj_on_of_nodup_map hnodup hqposts hp hqid
      rw [← hqp]
      unfold isDue at hqdue
      exact eq_of_beq ((Bool.and_eq_true ..).mp hqdue).1
    · rw [← hmark]
      unfold markClaimed
      rw [if_pos hc]
  · left
    rw [← hmark]
    unfold markClaimed
    rw [if_neg hc]
    exact hp

theorem claim_wf {now : Int} {limit : Nat} {st : StoreState}
    (hwf : WFStore st) : WFStore (claimDuePosts now limit st).1 := by
  obtain ⟨hposts, hnodup, hbound⟩ := hwf
  refine ⟨?_, ?_, ?_⟩
  · intro p' hp'
    rcases claim_mem_status hnodup hp' with h | ⟨p, hp, hpend, rfl⟩
    · exact hposts p' h
    · obtain ⟨hr, _hs, hio⟩ := hposts p hp
      refine ⟨hr, by simp [validStatuses], ?_⟩
      constructor
      · intro hne
        have := hio.mp hne
        rw [hpend] at this
        exact absurd this (by simp)
      · intro hpub
        exact absurd hpub (by simp)
  · rw [claim_ids_eq]
    exact hnodup
  · intro p' hp'
    rcases claim_mem_status hnodup hp' with h | ⟨p, hp, _, rfl⟩
    · exact hbound p' h
    · exact hbound p hp


theorem applyOutcome_id (now : Int) (o : Outcome) (p : ScheduledPost) :
    (applyOutcome now o p).id = p.id := by
  cases o with
  | success rid => rfl
  | transient msg =>
      simp only [applyOutcome]
      split <;> rfl
  | permanent msg => rfl

theorem applyOutcome_wf {p : ScheduledPost} (hwf : WFPost p)
    (hpub : p.status = "publishing") (now : Int) (o : Outcome) :
    WFPost (applyOutcome now o p) := by
  obtain ⟨hr, _hs, hio⟩ := hwf
  have hremote : p.remote_post_id = none := by
    by_contra hne
    have hps := hio.mp hne
    rw [hps] at hpub
    exact absurd hpub (by decide)
  cases o with
  | success rid =>
      exact ⟨hr, by simp [applyOutcome, validStatuses], by simp [applyOutcome]⟩
  | transient msg =>
      simp only [applyOutcome]
      split
      · next hlt =>
          exact ⟨hlt, by simp [validStatuses], by simp [hremote]⟩
      · exact ⟨hr, by simp [validStatuses], by simp [hremote]⟩
  | permanent msg =>
      exact ⟨hr, by simp [applyOutcome, validStatuses], by simp [applyOutcome, hremote]⟩

theorem record_ids_eq (pid : Nat) (now : Int) (o : Outcome) (st : StoreState) :
    ((recordOutcome pid now o st).posts.map fun p => p.id)
      = st.posts.map fun p => p.id := by
  unfold recordOutcome
  simp only [List.map_map]
  refine List.map_congr_left ?_
  intro p _
  simp only [Function.comp_apply]
  unfold recordStep
  split
  · exact applyOutcome_id ..
  · rfl

theorem record_wf {pid : Nat} {now : Int} {o : Outcome} {st : StoreState}
    (hwf : WFStore st) : WFStore (recordOutcome pid now o st) := by
  obtain ⟨hposts, hnodup, hbound⟩ := hwf
  refine ⟨?_, ?_, ?_⟩
  · intro p' hp'
    unfold recordOutcome at hp'
    simp only at hp'
    obtain ⟨p, hp, heq⟩ := List.mem_map.mp hp'
    by_cases hc : (p.id == pid && p.status == "publishing") = true
    · have hpub : p.status = "publishing" :=
        eq_of_beq ((Bool.and_eq_true ..).mp hc).2
      rw [← heq]
      unfold recordStep
      rw [if_pos hc]
      exact applyOutcome_wf (hposts p hp) hpub now o
    · rw [← heq]
      unfold recordStep
      rw [if_neg hc]
      exact hposts p hp
  · rw [record_ids_eq]
    exact hnodup
  · intro p' hp'
    unfold recordOutcome at hp'
    simp only at hp'
    obtain ⟨p, hp, heq⟩ := List.mem_map.mp hp'
    have hid : p'.id = p.id := by
      rw [← heq]
      unfold recordStep
      split
      · exact applyOutcome_id ..
      · rfl
    rw [hid]
    exact hbound p hp

theorem applyOp_wf {st : StoreState} (hwf : WFStore st) (op : Op) :
    WFStore (applyOp st op) := by
  cases op with
  | create now owner text sched =>
      simp only [applyOp]
      split
      · next st' heq => exact create_wf heq hwf
      · exact hwf
  | cancel pid owner =>
      simp only [applyOp]
      split
      · next st' heq => exact cancel_wf heq hwf
      · exact hwf
  | claim now limit => exact claim_wf hwf
  | record pid now o => exact record_wf hwf

theorem run_wf (ops : List Op) {st : StoreState} (hwf : WFStore st) :
    WFStore (run ops st) := by
  induction ops generalizing st with
  | nil => exact hwf
  | cons op ops ih => exact ih (applyOp_wf hwf op)

theorem initialStore_wf : WFStore initialStore := by
  refine ⟨?_, ?_, ?_⟩ <;> simp [initialStore]

theorem run_initial_wf (ops : List Op) : WFStore (run ops initialStore) :=
  run_wf ops initialStore_wf

theorem filter_eq_singleton {l : List ScheduledPost}
    (hnodup : (l.map fun p => p.id).Nodup) {x : ScheduledPost} (hx : x ∈ l)
    {pred : ScheduledPost → Bool} (hxp : pred x = true)
    (hid : ∀ a, pred a = true → a.id = x.id) :
    l.filter pred = [x] := by
  induction l with
  | nil => cases hx
  | cons a l ih =>
      simp only [List.map_cons, List.nodup_cons] at hnodup
      obtain ⟨hnotin, hnodup2⟩ := hnodup
      rcases List.mem_cons.mp hx with rfl | hmem
      · rw [List.filter_cons_of_pos hxp]
        have hnil : l.filter pred = [] := by
          rw [List.filter_eq_nil_iff]
          intro b hb hpb
          exact hnotin (hid b hpb ▸ List.mem_map_of_mem (fun p => p.id) hb)
        rw [hnil]
      · have hax : ¬ pred a = true := by
          intro h
          exact hnotin (hid a h ▸ List.mem_map_of_mem (fun p => p.id) hmem)
        rw [List.filter_cons_of_neg hax]
        exact ih hnodup2 hmem

theorem find_unique {l : List ScheduledPost}
    (hnodup : (l.map fun p => p.id).Nodup) {x : ScheduledPost} (hx : x ∈ l)
    {pred : ScheduledPost → Bool} (hxp : pred x = true)
    (hid : ∀ a, pred a = true → a.id = x.id) :
    l.find? pred = some x := by
  induction l with
  | nil => cases hx
  | cons a l ih =>
      simp only [List.map_cons, List.nodup_cons] at hnodup
      obtain ⟨hnotin, hnodup2⟩ := hnodup
      rcases List.mem_cons.mp hx with rfl | hmem
      · rw [List.find?_cons_of_pos _ hxp]
      · have hax : ¬ pred a = true := by
          intro h
          exact hnotin (hid a h ▸ List.mem_map_of_mem (fun p => p.id) hmem)
        rw [List.find?_cons_of_neg _ hax]
        exact ih hnodup2 hmem

theorem attemptTransient_pending_lt {p : ScheduledPost} {nid : Nat} (msg : String)
    (hpend : p.status = "pending") (hlt : p.retry_count < p.max_retries) :
    attemptTransient msg p.id { posts := [p], nextId := nid } =
      { posts := [{ p with
                    status := "pending"
                    retry_count := p.retry_count + 1
                    scheduled_at :=
                      p.scheduled_at + (backoff (p.retry_count + 1) : Int)
                    error_message := some msg }]
        nextId := nid } := by
  obtain ⟨pid, owner, text, sched, status, rc, mr, rpid, em⟩ := p
  simp only at hpend hlt ⊢
  subst hpend
  simp [attemptTransient, postNow, claimDuePosts, dueIds, recordOutcome, isDue,
        applyOutcome, List.find?, markClaimed, recordStep, hlt]

theorem attemptTransient_pending_exhausted {p : ScheduledPost} {nid : Nat}
    (msg : String) (hpend : p.status = "pending")
    (hge : ¬ p.retry_count < p.max_retries) :
    attemptTransient msg p.id { posts := [p], nextId := nid } =
      { posts := [{ p with
                    status := "failed"
                    error_message := some msg }]
        nextId := nid } := by
  obtain ⟨pid, owner, text, sched, status, rc, mr, rpid, em⟩ := p
  simp only at hpend hge ⊢
  subst hpend
  simp [attemptTransient, postNow, claimDuePosts, dueIds, recordOutcome, isDue,
        applyOutcome, List.find?, markClaimed, recordStep, hge]

theorem failNTimes_succ_last (msg : String) (pid n : Nat) (st : StoreState) :
    failNTimes msg pid (n + 1) st =
      attemptTransient msg pid (failNTimes msg pid n st) := by
  induction n generalizing st with
  | zero => rfl
  | succ n ih =>
      show failNTimes msg pid (n + 1) (attemptTransient msg pid st) = _
      rw [ih]
      rfl

theorem failNTimes_pending (msg : String) :
    ∀ (k : Nat) (p : ScheduledPost) (nid : Nat), p.status = "pending" →
      p.retry_count + k ≤ p.max_retries →
      ∃ q : ScheduledPost,
        failNTimes msg p.id k { posts := [p], nextId := nid } =
          { posts := [q], nextId := nid } ∧
        q.id = p.id ∧ q.status = "pending" ∧
        q.retry_count = p.retry_count + k ∧ q.max_retries = p.max_retries := by
  intro k
  induction k with
  | zero =>
      intro p nid hpend _
      exact ⟨p, rfl, rfl, hpend, rfl, rfl⟩
  | succ k ih =>
      intro p nid hpend hle
      have hlt : p.retry_count < p.max_retries := by omega
      have hstep := @attemptTransient_pending_lt p nid msg hpend hlt
      have hrec := ih { p with
          status := "pending"
          retry_count := p.retry_count + 1
          scheduled_at := p.scheduled_at + (backoff (p.retry_count + 1) : Int)
          error_message := some msg } nid rfl
        (by change p.retry_count + 1 + k ≤ p.max_retries; omega)
      obtain ⟨q, hq, hqid, hqs, hqr, hqm⟩ := hrec
      refine ⟨q, ?_, hqid, hqs, ?_, ?_⟩
      · show failNTimes msg p.id k
            (attemptTransient msg p.id { posts := [p], nextId := nid }) = _
        rw [hstep]
        exact hq
      · change q.retry_count = p.retry_count + 1 + k at hqr
        omega
      · exact hqm

/-- C2: for every scheduled post and every sequence of engine transitions,
`retry_count` never exceeds `max_retries`; and a post that fails transiently
`max_retries + 1` times ends with status `failed` and
`retry_count = max_retries`. -/
theorem retry_count_bounded :
    (∀ (ops : List Op) (p : ScheduledPost), p ∈ (run ops initialStore).posts →
        p.retry_count ≤ p.max_retries) ∧
    ∀ (p0 : ScheduledPost) (nid : Nat) (msg : String),
      p0.status = "pending" → p0.retry_count = 0 →
      ((failNTimes msg p0.id (p0.max_retries + 1)
          { posts := [p0], nextId := nid }).posts.map
        fun p => (p.status, p.retry_count)) = [("failed", p0.max_retries)] := by
  constructor
  · intro ops p hp
    exact ((run_initial_wf ops).1 p hp).1
  · intro p0 nid msg hpend hrc
    obtain ⟨q, hq, hqid, hqs, hqr, hqm⟩ :=
      failNTimes_pending msg p0.max_retries p0 nid hpend (by omega)
    rw [failNTimes_succ_last, hq, ← hqid]
    rw [attemptTransient_pending_exhausted msg hqs (by omega)]
    simp [hqr, hrc]

theorem retry_count_bounded_witness :
    (mkPost 0 1 "hello" 5).retry_count ≤ (mkPost 0 1 "hello" 5).max_retries ∧
    ((failNTimes "boom" 0 2
        { posts := [⟨0, 1, "hi", 5, "pending", 0, 1, none, none⟩], nextId := 1 }).posts.map
      fun p => (p.status, p.retry_count)) = [("failed", 1)] :=
  ⟨retry_count_bounded.1 [Op.create 0 1 "hello" 5] _ (by decide),
   retry_count_bounded.2 ⟨0, 1, "hi", 5, "pending", 0, 1, none, none⟩ 1 "boom" rfl rfl⟩

/-- C5: for every scheduled post observable after any sequence of store and
engine operations, the status is one of exactly the four values `pending`,
`publishing`, `published`, `failed`. -/
theorem status_always_valid :
    ∀ (ops : List Op) (p : ScheduledPost), p ∈ (run ops initialStore).posts →
      p.status ∈ validStatuses := by
  intro ops p hp
  exact ((run_initial_wf ops).1 p hp).2.1

theorem status_always_valid_witness :
    mkPost 0 1 "hello" 5 ∈ (run [Op.create 0 1 "hello" 5] initialStore).posts ∧
      (mkPost 0 1 "hello" 5).status ∈ validStatuses :=
  ⟨by decide, status_always_valid [Op.create 0 1 "hello" 5] _ (by decide)⟩

/-- C6: for every scheduled post and after every operation, `remote_post_id`
is non-null if and only if the status is `published`. -/
theorem remote_iff_published :
    ∀ (ops : List Op) (p : ScheduledPost), p ∈ (run ops initialStore).posts →
      (p.remote_post_id ≠ none ↔ p.status = "published") := by
  intro ops p hp
  exact ((run_initial_wf ops).1 p hp).2.2

theorem remote_iff_published_witness :
    (⟨0, 1, "hi", 5, "published", 0, 3, some "abc123", none⟩ : ScheduledPost) ∈
        (run [Op.create 0 1 "hi" 5, Op.claim 10 10,
              Op.record 0 10 (Outcome.success "abc123")] initialStore).posts ∧
      ((some "abc123" : Option String) ≠ none ↔ "published" = "published") :=
  ⟨by decide,
   remote_iff_published
     [Op.create 0 1 "hi" 5, Op.claim 10 10, Op.record 0 10 (Outcome.success "abc123")]
     ⟨0, 1, "hi", 5, "published", 0, 3, some "abc123", none⟩ (by decide)⟩

/-- C7: the retry backoff is monotonically non-decreasing, and bounded
above by the configured cap. -/
theorem backoff_monotone_bounded :
    ∀ n : Nat, backoff n ≤ backoff (n + 1) ∧ backoff n ≤ backoffCap := by
  intro n
  constructor
  · have h2 : 2 ^ (n - 1) ≤ 2 ^ (n + 1 - 1) :=
      Nat.pow_le_pow_right (by norm_num) (by omega)
    exact min_le_min (Nat.mul_le_mul_left _ h2) (le_refl _)
  · exact min_le_right _ _

/-- C3: `create` fails with `ValidationError` whenever `scheduled_at` is not
strictly in the future or `content_text` is empty, and no post enters the
store then; otherwise it succeeds, inserting a new post in status
`pending`. -/
theorem create_validation :
    ∀ (st : StoreState) (now sched : Int) (owner : Nat) (text : String),
      ((sched ≤ now ∨ text = "") →
        create st now owner text sched = .error .validationError) ∧
      (now < sched → text ≠ "" →
        create st now owner text sched =
          .ok { posts := st.posts ++ [mkPost st.nextId owner text sched]
                nextId := st.nextId + 1 } ∧
        (mkPost st.nextId owner text sched).status = "pending") := by
  intro st now sched owner text
  constructor
  · intro h
    unfold create
    rw [if_pos h]
  · intro h1 h2
    unfold create
    rw [if_neg (by push_neg; exact ⟨by omega, h2⟩)]
    exact ⟨rfl, rfl⟩

theorem create_validation_witness :
    create initialStore 0 1 "hello" (-1) = .error .validationError ∧
    create initialStore 0 1 "" 3600 = .error .validationError ∧
    (create initialStore 0 1 "hello" 3600 =
        .ok { posts := [mkPost 0 1 "hello" 3600], nextId := 1 } ∧
      (mkPost 0 1 "hello" 3600).status = "pending") :=
  ⟨(create_validation initialStore 0 (-1) 1 "hello").1 (Or.inl (by norm_num)),
   (create_validation initialStore 0 3600 1 "").1 (Or.inr rfl),
   (create_validation initialStore 0 3600 1 "hello").2 (by norm_num)
     (by decide)⟩

/-- C8: the status and error fields are read-only to callers — `create` and
`cancel` never alter an existing surviving row (so its `status` and
`error_message` stay character-for-character identical), and `listByOwner`
surfaces stored rows verbatim. -/
theorem fields_read_only :
    (∀ (owner : Nat) (st : StoreState) (q : ScheduledPost),
        q ∈ listByOwner owner st → q ∈ st.posts) ∧
    (∀ (st st' : StoreState) (now sched : Int) (owner : Nat) (text : String),
        create st now owner text sched = .ok st' →
        ∀ p ∈ st.posts, p ∈ st'.posts) ∧
    (∀ (st st' : StoreState) (pid owner : Nat),
        cancel pid owner st = .ok st' → ∀ p ∈ st'.posts, p ∈ st.posts) := by
  refine ⟨?_, ?_, ?_⟩
  · intro owner st q hq
    exact List.mem_of_mem_filter hq
  · intro st st' now sched owner text hok p hp
    unfold create at hok
    split at hok
    · exact absurd hok (by simp)
    · injection hok with hok
      subst hok
      exact List.mem_append_left _ hp
  · intro st st' pid owner hok p hp
    unfold cancel at hok
    split at hok
    · exact absurd hok (by simp)
    · split at hok
      · injection hok with hok
        subst hok
        exact List.mem_of_mem_filter hp
      · exact absurd hok (by simp)

theorem fields_read_only_witness :
    (⟨0, 1, "a", 5, "pending", 0, 3, none, none⟩ : ScheduledPost) ∈
        [(⟨0, 1, "a", 5, "pending", 0, 3, none, none⟩ : ScheduledPost),
         ⟨1, 1, "b", 5, "published", 0, 3, some "x", none⟩] ∧
    (⟨0, 1, "a", 5, "pending", 0, 3, none, none⟩ : ScheduledPost) ∈
        ({ posts := [⟨0, 1, "a", 5, "pending", 0, 3, none, none⟩,
                     ⟨1, 1, "b", 5, "published", 0, 3, some "x", none⟩]
           nextId := 2 } : StoreState).posts ++ [mkPost 2 1 "c" 9] ∧
    (⟨1, 1, "b", 5, "published", 0, 3, some "x", none⟩ : ScheduledPost) ∈
        [(⟨0, 1, "a", 5, "pending", 0, 3, none, none⟩ : ScheduledPost),
         ⟨1, 1, "b", 5, "published", 0, 3, some "x", none⟩] :=
  ⟨fields_read_only.1 1
      { posts := [⟨0, 1, "a", 5, "pending", 0, 3, none, none⟩,
                  ⟨1, 1, "b", 5, "published", 0, 3, some "x", none⟩]
        nextId := 2 }
      ⟨0, 1, "a", 5, "pending", 0, 3, none, none⟩ (by decide),
   fields_read_only.2.1
      { posts := [⟨0, 1, "a", 5, "pending", 0, 3, none, none⟩,
                  ⟨1, 1, "b", 5, "published", 0, 3, some "x", none⟩]
        nextId := 2 }
      _ 0 9 1 "c" rfl ⟨0, 1, "a", 5, "pending", 0, 3, none, none⟩ (by decide),
   fields_read_only.2.2
      { posts := [⟨0, 1, "a", 5, "pending", 0, 3, none, none⟩,
                  ⟨1, 1, "b", 5, "published", 0, 3, some "x", none⟩]
        nextId := 2 }
      _ 0 1 rfl ⟨1, 1, "b", 5, "published", 0, 3, some "x", none⟩ (by decide)⟩

/-- C4: `cancel` succeeds only while the post is `pending`, removing it
from future claim eligibility; on a non-`pending` post it fails with
`InvalidStateError`, and on a non-existent id with `NotFoundError`. -/
theorem cancel_semantics :
    ∀ (st : StoreState) (p : ScheduledPost) (pid owner : Nat) (now : Int)
      (limit : Nat),
      WFStore st →
      (p ∈ st.posts → p.id = pid → p.owner_account_id = owner →
        p.status = "pending" →
        cancel pid owner st =
          .ok { st with posts := st.posts.filter (fun q => q.id != pid) } ∧
        ((claimDuePosts now limit
            { st with posts := st.posts.filter (fun q => q.id != pid) }).2.filter
          (fun q => q.id == pid)) = []) ∧
      (p ∈ st.posts → p.id = pid → p.owner_account_id = owner →
        p.status ≠ "pending" → cancel pid owner st = .error .invalidStateError) ∧
      ((∀ q ∈ st.posts, ¬(q.id = pid ∧ q.owner_account_id = owner)) →
        cancel pid owner st = .error .notFoundError) := by
  intro st p pid owner now limit hwf
  obtain ⟨_hposts, hnodup, _hbound⟩ := hwf
  refine ⟨?_, ?_, ?_⟩
  · intro hmem hid hown hpend
    have hfind :
        st.posts.find? (fun q => q.id == pid && q.owner_account_id == owner)
          = some p := by
      refine find_unique hnodup hmem ?_ ?_
      · simp [hid, hown]
      · intro a ha
        have h1 := ((Bool.and_eq_true ..).mp ha).1
        rw [hid]
        exact eq_of_beq h1
    constructor
    · unfold cancel
      rw [hfind]
      simp only [hpend, if_pos]
    · rw [List.filter_eq_nil_iff]
      intro b hb
      obtain ⟨a, ha, rfl⟩ := List.mem_map.mp hb
      have ha2 : a ∈ st.posts.filter (fun q => q.id != pid) :=
        List.mem_of_mem_filter (List.mem_of_mem_take ha)
      have hne := List.of_mem_filter ha2
      simp only [bne_iff_ne, ne_eq] at hne
      simpa using hne
  · intro hmem hid hown hnp
    have hfind :
        st.posts.find? (fun q => q.id == pid && q.owner_account_id == owner)
          = some p := by
      refine find_unique hnodup hmem ?_ ?_
      · simp [hid, hown]
      · intro a ha
        have h1 := ((Bool.and_eq_true ..).mp ha).1
        rw [hid]
        exact eq_of_beq h1
    unfold cancel
    rw [hfind]
    simp only [hnp, if_neg, if_false]
  · intro hnone
    have hfind :
        st.posts.find? (fun q => q.id == pid && q.owner_account_id == owner)
          = none := by
      rw [List.find?_eq_none]
      intro q hq hcontra
      have h12 := (Bool.and_eq_true ..).mp hcontra
      exact hnone q hq ⟨eq_of_beq h12.1, eq_of_beq h12.2⟩
    unfold cancel
    rw [hfind]

theorem cancel_semantics_witness :
    (cancel 0 1 { posts := [⟨0, 1, "a", 5, "pending", 0, 3, none, none⟩,
                            ⟨1, 1, "b", 5, "published", 0, 3, some "x", none⟩]
                  nextId := 2 } =
        .ok { posts := [⟨1, 1, "b", 5, "published", 0, 3, some "x", none⟩]
              nextId := 2 } ∧
      ((claimDuePosts 9 5
          { posts := [⟨1, 1, "b", 5, "published", 0, 3, some "x", none⟩]
            nextId := 2 }).2.filter (fun q => q.id == 0)) = []) ∧
    cancel 1 1 { posts := [⟨0, 1, "a", 5, "pending", 0, 3, none, none⟩,
                           ⟨1, 1, "b", 5, "published", 0, 3, some "x", none⟩]
                 nextId := 2 } = .error .invalidStateError ∧
    cancel 7 1 { posts := [⟨0, 1, "a", 5, "pending", 0, 3, none, none⟩,
                           ⟨1, 1, "b", 5, "published", 0, 3, some "x", none⟩]
                 nextId := 2 } = .error .notFoundError :=
  ⟨(cancel_semantics
      { posts := [⟨0, 1, "a", 5, "pending", 0, 3, none, none⟩,
                  ⟨1, 1, "b", 5, "published", 0, 3, some "x", none⟩]
        nextId := 2 }
      ⟨0, 1, "a", 5, "pending", 0, 3, none, none⟩ 0 1 9 5 (by decide)).1
      (by decide) rfl rfl rfl,
   (cancel_semantics
      { posts := [⟨0, 1, "a", 5, "pending", 0, 3, none, none⟩,
                  ⟨1, 1, "b", 5, "published", 0, 3, some "x", none⟩]
        nextId := 2 }
      ⟨1, 1, "b", 5, "published", 0, 3, some "x", none⟩ 1 1 9 5 (by decide)).2.1
      (by decide) rfl rfl (by decide),
   (cancel_semantics
      { posts := [⟨0, 1, "a", 5, "pending", 0, 3, none, none⟩,
                  ⟨1, 1, "b", 5, "published", 0, 3, some "x", none⟩]
        nextId := 2 }
      ⟨0, 1, "a", 5, "pending", 0, 3, none, none⟩ 7 1 9 5 (by decide)).2.2
      (by decide)⟩

/-- C1: at most one publish per post — of two successive `claimDuePosts`
calls against the same due `pending` post, the first claims it exactly
once and the second not at all (each claim is what triggers one publish
call), and recording the one publish success leaves exactly one
`published` row for that post. -/
theorem claim_at_most_once :
    ∀ (st : StoreState) (p : ScheduledPost) (now : Int) (rid : String),
      WFStore st → p ∈ st.posts → p.status = "pending" →
      p.scheduled_at ≤ now →
      ((claimDuePosts now st.posts.length st).2.filter
          (fun q => q.id == p.id)).length = 1 ∧
      ((claimDuePosts now (claimDuePosts now st.posts.length st).1.posts.length
          (claimDuePosts now st.posts.length st).1).2.filter
          (fun q => q.id == p.id)).length = 0 ∧
      ((recordOutcome p.id now (Outcome.success rid)
          (claimDuePosts now st.posts.length st).1).posts.filter
          (fun q => q.id == p.id && q.status == "published")).length = 1 := by
  intro st p now rid hwf hmem hpend hdue
  obtain ⟨hposts, hnodup, hbound⟩ := hwf
  have hfull : (st.posts.filter (isDue now)).take st.posts.length
      = st.posts.filter (isDue now) :=
    List.take_of_length_le (List.length_filter_le _ _)
  have hpdue : isDue now p = true := by simp [isDue, hpend, hdue]
  have hpbase : p ∈ st.posts.filter (isDue now) :=
    List.mem_filter.mpr ⟨hmem, hpdue⟩
  have hnodup1 : ((st.posts.filter (isDue now)).map fun q => q.id).Nodup :=
    List.Nodup.sublist (List.Sublist.map _ (List.filter_sublist _)) hnodup
  have hcontains : (dueIds now st.posts.length st).contains p.id = true := by
    simp only [dueIds]
    rw [hfull]
    simpa using List.mem_map_of_mem (fun q => q.id) hpbase
  have hclaimed1 : (claimDuePosts now st.posts.length st).2
      = (st.posts.filter (isDue now)).map
          (fun q => { q with status := "publishing" }) := by
    simp only [claimDuePosts]
    rw [hfull]
  refine ⟨?_, ?_, ?_⟩
  · -- the first call claims p exactly once
    have hfil :
        ((st.posts.filter (isDue now)).map
            (fun q => { q with status := "publishing" })).filter
          (fun q => q.id == p.id) = [{ p with status := "publishing" }] := by
      refine filter_eq_singleton ?_ (List.mem_map_of_mem _ hpbase) ?_ ?_
      · rw [List.map_map]
        exact hnodup1
      · simp
      · intro a ha
        exact eq_of_beq ha
    rw [hclaimed1, hfil]
    rfl
  · -- the second call does not claim p again
    have hsnd : (claimDuePosts now
          (claimDuePosts now st.posts.length st).1.posts.length
          (claimDuePosts now st.posts.length st).1).2
        = (((claimDuePosts now st.posts.length st).1.posts.filter
              (isDue now)).take
            (claimDuePosts now st.posts.length st).1.posts.length).map
          (fun q => { q with status := "publishing" }) := rfl
    rw [hsnd, List.length_eq_zero, List.filter_eq_nil_iff]
    intro b hb
    obtain ⟨a, ha, rfl⟩ := List.mem_map.mp hb
    have ha2 : a ∈ (claimDuePosts now st.posts.length st).1.posts.filter
        (isDue now) := List.mem_of_mem_take ha
    have hadue : isDue now a = true := List.of_mem_filter ha2
    have hamem : a ∈ st.posts.map (markClaimed now st.posts.length st) :=
      List.mem_of_mem_filter ha2
    intro hcontra
    have haid : a.id = p.id := eq_of_beq hcontra
    obtain ⟨x, hx, hxeq⟩ := List.mem_map.mp hamem
    by_cases hc : (dueIds now st.posts.length st).contains x.id = true
    · have hxpub : a = { x with status := "publishing" } := by
        rw [← hxeq]
        unfold markClaimed
        rw [if_pos hc]
      rw [hxpub] at hadue
      simp [isDue] at hadue
    · have hxa : a = x := by
        rw [← hxeq]
        unfold markClaimed
        rw [if_neg hc]
      have hxp : x = p := by
        refine List.inj_on_of_nodup_map hnodup hx hmem ?_
        rw [← hxa]
        exact haid
      rw [hxp] at hc
      exact hc hcontains
  · -- recording the publish success yields exactly one published row
    have hmarkp : markClaimed now st.posts.length st p
        = { p with status := "publishing" } := by
      unfold markClaimed
      rw [if_pos hcontains]
    have hgx : recordStep p.id now (Outcome.success rid)
          ({ p with status := "publishing" })
        = { p with
            status := "published"
            remote_post_id := some rid
            error_message := none } := by
      unfold recordStep
      rw [if_pos (by simp)]
      rfl
    have hxmem : ({ p with
          status := "published"
          remote_post_id := some rid
          error_message := none } : ScheduledPost)
        ∈ (recordOutcome p.id now (Outcome.success rid)
            (claimDuePosts now st.posts.length st).1).posts := by
      show _ ∈ ((claimDuePosts now st.posts.length st).1.posts.map
        (recordStep p.id now (Outcome.success rid)))
      have h1 : markClaimed now st.posts.length st p
          ∈ (claimDuePosts now st.posts.length st).1.posts :=
        List.mem_map_of_mem _ hmem
      have h2 := List.mem_map_of_mem
        (recordStep p.id now (Outcome.success rid)) h1
      rwa [hmarkp, hgx] at h2
    have hfil : (recordOutcome p.id now (Outcome.success rid)
          (claimDuePosts now st.posts.length st).1).posts.filter
          (fun q => q.id == p.id && q.status == "published")
        = [{ p with
             status := "published"
             remote_post_id := some rid
             error_message := none }] := by
      refine filter_eq_singleton ?_ hxmem ?_ ?_
      · rw [record_ids_eq, claim_ids_eq]
        exact hnodup
      · simp
      · intro a ha
        exact eq_of_beq ((Bool.and_eq_true ..).mp ha).1
    rw [hfil]
    rfl

theorem claim_at_most_once_witness :
    ((claimDuePosts 5
        ({ posts := [⟨0, 1, "hi", 0, "pending", 0, 3, none, none⟩]
           nextId := 1 } : StoreState).posts.length
        { posts := [⟨0, 1, "hi", 0, "pending", 0, 3, none, none⟩]
          nextId := 1 }).2.filter (fun q => q.id == 0)).length = 1 ∧
    ((claimDuePosts 5
        (claimDuePosts 5
          ({ posts := [⟨0, 1, "hi", 0, "pending", 0, 3, none, none⟩]
             nextId := 1 } : StoreState).posts.length
          { posts := [⟨0, 1, "hi", 0, "pending", 0, 3, none, none⟩]
            nextId := 1 }).1.posts.length
        (claimDuePosts 5
          ({ posts := [⟨0, 1, "hi", 0, "pending", 0, 3, none, none⟩]
             nextId := 1 } : StoreState).posts.length
          { posts := [⟨0, 1, "hi", 0, "pending", 0, 3, none, none⟩]
            nextId := 1 }).1).2.filter (fun q => q.id == 0)).length = 0 ∧
    ((recordOutcome 0 5 (Outcome.success "r")
        (claimDuePosts 5
          ({ posts := [⟨0, 1, "hi", 0, "pending", 0, 3, none, none⟩]
             nextId := 1 } : StoreState).posts.length
          { posts := [⟨0, 1, "hi", 0, "pending", 0, 3, none, none⟩]
            nextId := 1 }).1).posts.filter
        (fun q => q.id == 0 && q.status == "published")).length = 1 :=
  claim_at_most_once
    { posts := [⟨0, 1, "hi", 0, "pending", 0, 3, none, none⟩], nextId := 1 }
    ⟨0, 1, "hi", 0, "pending", 0, 3, none, none⟩ 5 "r"
    (by decide) (by decide) rfl (by decide)

end Scheduler

namespace Frontend

/-- C9: with a signed-in user, if the entered scheduled time is missing,
unparsable, or not strictly later than now, the submit handler sets an
error and issues no HTTP request, leaving the content and time fields
unchanged; the two fields are cleared exactly when a request was issued
and succeeded. -/
theorem submit_validation :
    ∀ (parse : String → Option Int) (now : Int) (api : ApiResult)
      (st : PageState),
      ((st.scheduledAt = "" ∨ parse st.scheduledAt = none ∨
          (∀ t, parse st.scheduledAt = some t → t ≤ now)) →
        (handleSchedulePost true parse now api st).state.error.isSome = true ∧
        (handleSchedulePost true parse now api st).request = none ∧
        (handleSchedulePost true parse now api st).state.contentText
          = st.contentText ∧
        (handleSchedulePost true parse now api st).state.scheduledAt
          = st.scheduledAt) ∧
      ((api = ApiResult.ok ∧
          (handleSchedulePost true parse now api st).request ≠ none) →
        (handleSchedulePost true parse now api st).state.contentText = "" ∧
        (handleSchedulePost true parse now api st).state.scheduledAt = "") ∧
      (¬(api = ApiResult.ok ∧
          (handleSchedulePost true parse now api st).request ≠ none) →
        (handleSchedulePost true parse now api st).state.contentText
          = st.contentText ∧
        (handleSchedulePost true parse now api st).state.scheduledAt
          = st.scheduledAt) := by
  intro parse now api st
  by_cases h1 : st.scheduledAt = ""
  · simp [handleSchedulePost, h1]
  · cases hp : parse st.scheduledAt with
    | none => simp [handleSchedulePost, h1, hp]
    | some t =>
        by_cases ht : t ≤ now
        · simp [handleSchedulePost, h1, hp, ht]
        · cases api with
          | ok => simp [handleSchedulePost, h1, hp, ht]
          | err d => simp [handleSchedulePost, h1, hp, ht]

theorem submit_validation_witness :
    ((handleSchedulePost true (fun _ => none) 0 ApiResult.ok
        ⟨"draft", "soon", none, none⟩).state.error.isSome = true ∧
      (handleSchedulePost true (fun _ => none) 0 ApiResult.ok
        ⟨"draft", "soon", none, none⟩).request = none ∧
      (handleSchedulePost true (fun _ => none) 0 ApiResult.ok
        ⟨"draft", "soon", none, none⟩).state.contentText = "draft" ∧
      (handleSchedulePost true (fun _ => none) 0 ApiResult.ok
        ⟨"draft", "soon", none, none⟩).state.scheduledAt = "soon") ∧
    ((handleSchedulePost true (fun _ => some 10) 0 ApiResult.ok
        ⟨"draft", "soon", none, none⟩).state.contentText = "" ∧
      (handleSchedulePost true (fun _ => some 10) 0 ApiResult.ok
        ⟨"draft", "soon", none, none⟩).state.scheduledAt = "") :=
  ⟨(submit_validation (fun _ => none) 0 ApiResult.ok
      ⟨"draft", "soon", none, none⟩).1 (Or.inr (Or.inl rfl)),
   (submit_validation (fun _ => some 10) 0 ApiResult.ok
      ⟨"draft", "soon", none, none⟩).2.1 ⟨rfl, by decide⟩⟩

set_option maxRecDepth 4000 in
/-- C10 counterexample: for a failed post whose `error_message` is the
empty string, the page renders `Unknown error` (JS `||` treats the empty
string as falsy), while the claim as stated renders the empty string. -/
theorem truncation_counterexample :
    displayedFailedError (some "") ≠ claimedFailedError (some "") := by
  decide

/-- C10 (amended): the displayed body equals the first 150 characters of
`content_text` with an ellipsis exactly when it is longer, and the
displayed error of a failed post equals the first 50 characters of
`error_message` — with the `Unknown error` fallback when `error_message`
is null or empty — with an ellipsis exactly when the error message has
more than 50 characters. -/
theorem truncation_amended :
    ∀ (content : String) (em : Option String),
      displayedBody content = claimedBody content ∧
      displayedFailedError em = amendedFailedError em := by
  intro content em
  constructor
  · rfl
  · cases em with
    | none => rfl
    | some e =>
        by_cases he : e = ""
        · subst he
          rfl
        · simp [displayedFailedError, amendedFailedError, jsOr, he]

end Frontend
